import Mathlib

/-!
Shallow embedding of the TrendRadar enrichment modules
(`stock_association.py` and `mcp_enhance.py`).

Python strings are modelled as Lean `String`; the handful of string
operations the source uses (`lower`, `in` substring test, `split`,
`strip`, `startswith`, `join`) are given executable char-list
implementations below so that concrete inputs evaluate inside the
kernel.  Python dicts with a known shape are modelled as structures,
with an `extra` field standing for the remaining keys, which the
source only ever copies; arbitrary JSON values (parsed configs,
AI responses) are modelled by the inductive `JVal`.
-/

/-- Model of a parsed JSON value (result of `json.load` / `json.loads`). -/
inductive JVal where
  | str (s : String)
  | num (n : Int)
  | bool (b : Bool)
  | null
  | arr (xs : List JVal)
  | obj (fields : List (String × JVal))

/-- Python `pat in s` substring test on strings. -/
def sContains (s pat : String) : Bool := decide (pat.data <:+: s.data)

/-- Python `str.lower()` (char-wise lowering, the relevant fragment). -/
def sLower (s : String) : String := String.mk (s.data.map Char.toLower)

/-- Python `str.startswith(pat)`. -/
def sStartsWith (s pat : String) : Bool := decide (pat.data <+: s.data)

/-- Python `str.strip()` on a char list: drop whitespace at both ends. -/
def trimCL (l : List Char) : List Char :=
  ((l.dropWhile Char.isWhitespace).reverse.dropWhile Char.isWhitespace).reverse

/-- Python `str.strip()`. -/
def sTrim (s : String) : String := String.mk (trimCL s.data)

/-- Fuelled worker for `str.split(sep)` with a non-empty separator:
left-to-right scan, splitting at each non-overlapping occurrence of
`sep`.  `acc` holds the chars of the current field, reversed. -/
def splitGo (sep : List Char) : Nat → List Char → List Char → List (List Char)
  | 0, l, acc => [acc.reverse ++ l]
  | _ + 1, [], acc => [acc.reverse]
  | fuel + 1, c :: rest, acc =>
    if sep ≠ [] ∧ sep <+: (c :: rest) then
      acc.reverse :: splitGo sep fuel ((c :: rest).drop sep.length) []
    else
      splitGo sep fuel rest (c :: acc)

/-- Python `s.split(sep)` for a non-empty separator `sep`. -/
def sSplitOn (s sep : String) : List String :=
  (splitGo sep.data s.data.length s.data []).map String.mk

/-- Python `sep.join(parts)`. -/
def sJoin (sep : String) : List String → String
  | [] => ""
  | [x] => x
  | x :: y :: rest => x ++ sep ++ sJoin sep (y :: rest)

/-- A single quote character, used by the feishu markup fragments. -/
def quoteChar : String := String.singleton (Char.ofNat 39)

/-!  ## stock_association.py : data model  -/

/-- One entry of the `股票映射配置` list of the mapping config:
`name` = `股票名称`, `code` = `股票代码`, `keywords` = `关联关键词`. -/
structure StockMapping where
  name : String
  code : String
  keywords : List String
deriving DecidableEq, Repr

/-- One entry of the `行业板块映射` list:
`sector` = `板块名称`, `keywords` = `关联关键词`. -/
structure IndustryMapping where
  sector : String
  keywords : List String
deriving DecidableEq, Repr

/-- A dict appended to `related_stocks` by `find_related_stocks`:
`code` = `股票代码`, `name` = `股票名称`,
`matched_keywords` = `匹配关键词`, `strength` = `匹配强度`. -/
structure StockMatch where
  code : String
  name : String
  matched_keywords : List String
  strength : Nat
deriving DecidableEq, Repr

/-- A dict appended to `related_industries` by `find_related_industries`:
`sector` = `板块名称`, `matched_keywords` = `匹配关键词`,
`strength` = `匹配强度`. -/
structure IndustryMatch where
  sector : String
  matched_keywords : List String
  strength : Nat
deriving DecidableEq, Repr

/-- The `StockAssociator` instance state after `_load_config`:
the two mapping tables. -/
structure StockAssociator where
  stock_mappings : List StockMapping
  industry_mappings : List IndustryMapping
deriving DecidableEq, Repr

/-!  ## Python `list.sort(key=..., reverse=True)`

Python's sort is stable; with `reverse=True` it is a stable sort by
descending key.  `insertD`/`sortD` implement the canonical stable
descending insertion sort: an element is inserted after every earlier
element with a strictly larger key and before the first element whose
key is not larger (so, before equal keys of later elements, preserving
the original order of ties). -/

/-- Insert `x` into a descending-sorted list, after all strictly
greater keys (stable for equal keys). -/
def insertD {α : Type} (key : α → Nat) (x : α) : List α → List α
  | [] => [x]
  | y :: ys => if key x < key y then y :: insertD key x ys else x :: y :: ys

/-- Stable descending insertion sort by `key`; models
`list.sort(key=..., reverse=True)`. -/
def sortD {α : Type} (key : α → Nat) : List α → List α
  | [] => []
  | x :: xs => insertD key x (sortD key xs)

/-!  ## stock_association.py : matching  -/

/-- The `matched_keywords` list built for one mapping entry: keywords
whose lowering occurs in the lowered title (`keyword.lower() in
title_lower`). -/
def matchedKeywords (title_lower : String) (keywords : List String) : List String :=
  keywords.filter (fun k => sContains title_lower (sLower k))

/-- The `related_stocks` list as built by the loop of
`find_related_stocks`, before sorting and truncation: one `StockMatch`
per mapping entry with at least one matching keyword, in config order. -/
def relatedStocksRaw (mappings : List StockMapping) (title : String) : List StockMatch :=
  let title_lower := sLower title
  mappings.filterMap (fun stock =>
    let mk := matchedKeywords title_lower stock.keywords
    if mk.isEmpty then none
    else some { code := stock.code, name := stock.name
                matched_keywords := mk, strength := mk.length })

/-- `StockAssociator.find_related_stocks`: match, sort by `匹配强度`
descending (stable), return the first 3. -/
def find_related_stocks (a : StockAssociator) (title : String) : List StockMatch :=
  (sortD StockMatch.strength (relatedStocksRaw a.stock_mappings title)).take 3

/-- The `related_industries` list as built by the loop of
`find_related_industries`, before sorting and truncation. -/
def relatedIndustriesRaw (mappings : List IndustryMapping) (title : String) :
    List IndustryMatch :=
  let title_lower := sLower title
  mappings.filterMap (fun industry =>
    let mk := matchedKeywords title_lower industry.keywords
    if mk.isEmpty then none
    else some { sector := industry.sector, matched_keywords := mk, strength := mk.length })

/-- `StockAssociator.find_related_industries`: match, sort by
`匹配强度` descending (stable), return the first 2. -/
def find_related_industries (a : StockAssociator) (title : String) : List IndustryMatch :=
  (sortD IndustryMatch.strength (relatedIndustriesRaw a.industry_mappings title)).take 2

/-!  ## stock_association.py : enrichment of title dicts  -/

/-- A title dict inside the news payload.  `title : Option String`
models presence/absence of the `"title"` key (`none` = missing, so
`title_data.get("title", "")` is `title.getD ""`).  `related_stocks`
and `related_industries` model the keys of the same names (absent in
the input payloads); `extra` stands for all other keys, which the
source only copies. -/
structure TitleData where
  title : Option String
  related_stocks : Option (List StockMatch)
  related_industries : Option (List IndustryMatch)
  extra : List (String × String)
deriving DecidableEq, Repr

/-- `StockAssociator.associate_title_with_stocks`: if
`title_data.get("title", "")` is falsy (missing or empty) return the
input as is, else return a shallow copy with `related_stocks` and
`related_industries` set to the two match lists. -/
def associate_title_with_stocks (a : StockAssociator) (title_data : TitleData) :
    TitleData :=
  let title := title_data.title.getD ""
  if title = "" then title_data
  else
    { title_data with
      related_stocks := some (find_related_stocks a title)
      related_industries := some (find_related_industries a title) }

/-- One entry of the `"stats"` list (or of the `"new_titles"` list) of
the news payload: a dict with a `"titles"` list and other keys
(`extra`) that the source copies verbatim. -/
structure SourceData where
  titles : List TitleData
  extra : List (String × String)
deriving DecidableEq, Repr

/-- The top-level news payload: the `"stats"` and `"new_titles"` lists
(`news_data.get(..., [])` makes a missing key the empty list) plus the
remaining keys `extra`, copied verbatim. -/
structure NewsData where
  stats : List SourceData
  new_titles : List SourceData
  extra : List (String × String)
deriving DecidableEq, Repr

/-- `associate_news_with_stocks`: enrich every title dict of every
entry of `"stats"` and `"new_titles"`, rebuilding each entry with
`.copy()` and the updated titles list, and return a new top-level
copy with the two updated lists. -/
def associate_news_with_stocks (a : StockAssociator) (news_data : NewsData) :
    NewsData :=
  let updated_stats := news_data.stats.map (fun stat =>
    { stat with titles := stat.titles.map (associate_title_with_stocks a) })
  let updated_new_titles := news_data.new_titles.map (fun source_data =>
    { source_data with titles := source_data.titles.map (associate_title_with_stocks a) })
  { news_data with stats := updated_stats, new_titles := updated_new_titles }

/-!  ## stock_association.py : config loading  -/

/-- Outcome of reading the config file in `_load_config`:
`missing` = `config_path.exists()` is false; `unreadable` = `open` /
`json.load` (or the `.get` calls on a non-dict document) raised, the
warning branch; `parsed` = the two lists were read from the document
(`config.get(key, [])` defaults a missing key to the empty list). -/
inductive ConfigFile where
  | missing
  | unreadable
  | parsed (stocks : List StockMapping) (industries : List IndustryMapping)

/-- `StockAssociator.__init__` + `_load_config`: the tables start
empty and are only assigned in the successful branch; every failure
is printed and swallowed. -/
def mkStockAssociator (c : ConfigFile) : StockAssociator :=
  match c with
  | .missing => { stock_mappings := [], industry_mappings := [] }
  | .unreadable => { stock_mappings := [], industry_mappings := [] }
  | .parsed stocks industries =>
    { stock_mappings := stocks, industry_mappings := industries }

/-!  ## stock_association.py : formatting  -/

/-- `format_stock_info`: empty list gives `""`; otherwise one
bracketed fragment per stock in platform markup, joined after a
platform-specific `相关股票:` label. -/
def format_stock_info (related_stocks : List StockMatch) (platform : String) : String :=
  if related_stocks.isEmpty then ""
  else
    let stock_info_parts := related_stocks.map (fun stock =>
      if platform = "feishu" then
        "<font color=" ++ quoteChar ++ "blue" ++ quoteChar ++ ">[" ++
          stock.name ++ "(" ++ stock.code ++ ")]</font>"
      else if platform = "dingtalk" ∨ platform = "wework" then
        "[" ++ stock.name ++ "(" ++ stock.code ++ ")]"
      else if platform = "telegram" then
        "<b>[" ++ stock.name ++ "(" ++ stock.code ++ ")]</b>"
      else if platform = "ntfy" then
        "[" ++ stock.name ++ "(" ++ stock.code ++ ")]"
      else
        "[" ++ stock.name ++ "(" ++ stock.code ++ ")]")
    if platform = "feishu" then
      " <font color=" ++ quoteChar ++ "grey" ++ quoteChar ++ ">相关股票:</font> " ++
        sJoin " " stock_info_parts
    else if platform = "dingtalk" ∨ platform = "wework" ∨ platform = "ntfy" then
      " 相关股票: " ++ sJoin " " stock_info_parts
    else if platform = "telegram" then
      " <b>相关股票:</b> " ++ sJoin " " stock_info_parts
    else
      " 相关股票: " ++ sJoin " " stock_info_parts

/-!  ## stock_association.py : record access on raw JSON entries

`find_related_stocks` reads `stock["股票名称"]`, `stock["股票代码"]`
and `stock["关联关键词"]` from each raw config entry with no guard:
a missing key raises `KeyError`, a non-dict entry raises `TypeError`,
a non-list keyword value or a non-string keyword raises when iterated
or lowered.  `findRelatedStocksE` is the fallible embedding of the
same loop over raw `JVal` entries, with `Except.error` standing for
the raised exception. -/

/-- `d[k]` on a raw JSON value: error unless `d` is an object carrying
the key (first occurrence wins, as in a Python dict). -/
def jIndex (d : JVal) (k : String) : Except Unit JVal :=
  match d with
  | .obj fields =>
    match fields.find? (fun p => p.1 == k) with
    | some p => .ok p.2
    | none => .error ()
  | _ => .error ()

/-- `keyword.lower() in title_lower` over a raw keyword: error unless
the keyword is a string. -/
def matchKeywordE (title_lower : String) (k : JVal) : Except Unit Bool :=
  match k with
  | .str s => .ok (sContains title_lower (sLower s))
  | _ => .error ()

/-- The inner keyword loop over a raw `关联关键词` value: error unless
it is a list of strings. -/
def matchedKeywordsE (title_lower : String) (kws : JVal) : Except Unit (List String) :=
  match kws with
  | .arr xs =>
    xs.foldr (fun k acc => do
      let matched ← acc
      match k with
      | .str s =>
        if sContains title_lower (sLower s) then pure (s :: matched) else pure matched
      | _ => .error ()) (pure [])
  | _ => .error ()

/-- The body of the `for stock in self.stock_mappings` loop for one
raw entry: read the three keys, match the keywords, and return the
`StockMatch` to append (or `none`). -/
def stockEntryE (title_lower : String) (stock : JVal) : Except Unit (Option StockMatch) := do
  let nameV ← jIndex stock "股票名称"
  let codeV ← jIndex stock "股票代码"
  let kwsV ← jIndex stock "关联关键词"
  let mk ← matchedKeywordsE title_lower kwsV
  match nameV, codeV with
  | .str name, .str code =>
    if mk.isEmpty then pure none
    else pure (some { code := code, name := name, matched_keywords := mk
                      strength := mk.length })
  | _, _ =>
    if mk.isEmpty then pure none
    else pure (some { code := "", name := "", matched_keywords := mk
                      strength := mk.length })

/-- Fallible `find_related_stocks` over raw config entries. -/
def findRelatedStocksE (mappings : List JVal) (title : String) :
    Except Unit (List StockMatch) := do
  let title_lower := sLower title
  let raw ← mappings.foldr (fun stock acc => do
    let rest ← acc
    let entry ← stockEntryE title_lower stock
    match entry with
    | some m => pure (m :: rest)
    | none => pure rest) (pure [])
  pure ((sortD StockMatch.strength raw).take 3)

/-- The body of the `for industry in self.industry_mappings` loop for
one raw entry. -/
def industryEntryE (title_lower : String) (industry : JVal) :
    Except Unit (Option IndustryMatch) := do
  let sectorV ← jIndex industry "板块名称"
  let kwsV ← jIndex industry "关联关键词"
  let mk ← matchedKeywordsE title_lower kwsV
  match sectorV with
  | .str sector =>
    if mk.isEmpty then pure none
    else pure (some { sector := sector, matched_keywords := mk, strength := mk.length })
  | _ =>
    if mk.isEmpty then pure none
    else pure (some { sector := "", matched_keywords := mk, strength := mk.length })

/-- Fallible `find_related_industries` over raw config entries. -/
def findRelatedIndustriesE (mappings : List JVal) (title : String) :
    Except Unit (List IndustryMatch) := do
  let title_lower := sLower title
  let raw ← mappings.foldr (fun industry acc => do
    let rest ← acc
    let entry ← industryEntryE title_lower industry
    match entry with
    | some m => pure (m :: rest)
    | none => pure rest) (pure [])
  pure ((sortD IndustryMatch.strength raw).take 2)

/-!  ## mcp_enhance.py : data model

A news item dict: `title` and `platform` model `item.get(key, "")`
(a missing key behaves as `""`), the ` ai_annotation` field models the
presence (`some`) or absence (`none`) of the `"ai_annotation"` key,
and `extra` stands for the remaining keys, untouched by the module. -/
structure NewsItem where
  title : String
  platform : String
  ai_annotation : Option JVal
  extra : List (String × String)

/-- The `"ai_annotation"` entry of an item (`none` = key absent). -/
def annot : NewsItem → Option JVal
  | ⟨_, _, a, _⟩ => a

/-- What the network round trip of one loop iteration of
`annotate_news_with_ai` did.  `raised` covers any exception inside the
`try` block (`requests.post` failing, `res.json()` not parsing) with
the exception message; `response status body` is a reply whose JSON
body decoded, with `body` describing the fields the code reads. -/
inductive RespBody where
  | noContent
  | content (parsed : Option JVal)

/-- See `RespBody`.  `noContent` = the decoded reply has no
`result.content` string; `content parsed` = it has one, and
`json.loads` on it gives `parsed` (`none` = the inner parse raised). -/
inductive CallOutcome where
  | raised (msg : String)
  | response (status : Nat) (body : RespBody)

/-- The body of one iteration of the `for i, item in enumerate(...)`
loop of `annotate_news_with_ai`, given the outcome of the network
call for this item: a raised exception attaches
`{"error": str(e)}`; a 200 reply with a `result.content` that fails
`json.loads` attaches `{"error": "解析失败"}`; a 200 reply with a
parsed content attaches it; anything else leaves the item alone.
The item is then appended to the output in every case. -/
def annotateItem (o : CallOutcome) (item : NewsItem) : NewsItem :=
  match o with
  | .raised msg => { item with ai_annotation := some (.obj [("error", .str msg)]) }
  | .response status body =>
    if status = 200 then
      match body with
      | .noContent => item
      | .content none =>
        { item with ai_annotation := some (.obj [("error", .str "解析失败")]) }
      | .content (some ai_data) => { item with ai_annotation := some ai_data }
    else item

/-- `annotate_news_with_ai`.  `available` is the result of the
`is_mcp_available()` liveness probe; `oracle i` is the outcome of the
network call for the `i`-th item (the environment of the run).  When
the probe fails the input list is returned as is; otherwise every
item is processed in order by `annotateItem` and appended. -/
def annotate_news_with_ai (available : Bool) (oracle : Nat → CallOutcome)
    (news_list : List NewsItem) : List NewsItem :=
  if !available then news_list
  else (news_list.enum.map (fun p => annotateItem (oracle p.1) p.2))

/-!  ## mcp_enhance.py : HTML injection  -/

/-- One entry of `news_groups`: a dict with a `"news"` list of items. -/
structure NewsGroup where
  news : List NewsItem

/-- Python truthiness of a JSON value (`if ann`): empty string,
zero, `False`, `None`, empty list and empty dict are falsy. -/
def truthy : JVal → Bool
  | .str s => decide (s ≠ "")
  | .num n => decide (n ≠ 0)
  | .bool b => b
  | .null => false
  | .arr xs => !xs.isEmpty
  | .obj fields => !fields.isEmpty

/-- Python `"error" in ann` on the annotation shapes where the source
completes: key lookup on a dict, element test on a list, substring
test on a string.  On a truthy number, boolean or `None` the source
raises `TypeError` out of `add_ai_html_blocks` (see `pyInE`); the
catch-all branch here is only sound on `annSafe` values, which is the
hypothesis the C9 theorem carries. -/
def hasErrorKey : JVal → Bool
  | .obj fields => fields.any (fun p => p.1 == "error")
  | .arr xs => xs.any (fun v => match v with | .str s => s == "error" | _ => false)
  | .str s => sContains s "error"
  | _ => false

/-- `ann.get(k, "")` interpolated into the block, on the shapes the
model renders exactly: a dict whose value at `k` is a string or
absent.  On a non-dict `ann` the source raises `AttributeError` (see
`pyGetE`); a non-string value Python would `str()`-render; both are
excluded by `annSafe`. -/
def jGetStr (ann : JVal) (k : String) : String :=
  match ann with
  | .obj fields =>
    match (fields.find? (fun p => p.1 == k)).map Prod.snd with
    | some (.str s) => s
    | _ => ""
  | _ => ""

/-- `ann.get(k, [])` fed to `", ".join(...)`, on the shapes the model
renders exactly: a dict whose value at `k` is a list of strings or
absent.  Non-dict `ann` (`AttributeError`), a list with a non-string
element, a number, boolean or `None` value (`TypeError` in `join`)
raise in the source (see `pyGetE`/`pyJoinFieldE`); all are excluded
by `annSafe`. -/
def jGetStrList (ann : JVal) (k : String) : List String :=
  match ann with
  | .obj fields =>
    match (fields.find? (fun p => p.1 == k)).map Prod.snd with
    | some (.arr xs) => xs.filterMap (fun v => match v with | .str s => some s | _ => none)
    | _ => []
  | _ => []

/-- The literal text of the block f-string (leading newline and
indentation included), abstracted over its four interpolated values. -/
def blockText (et bs sc rn : String) : String :=
  "\n                            <div class=\"ai-annotation\" style=\"background:#f8f9fa; padding:8px; border-left:3px solid #1976d2; margin:8px 0; font-size:0.9em;\">\n                              🤖 <b>AI分析</b>：" ++
    et ++
    "<br>\n                              ✅ <b>受益环节</b>：" ++
    bs ++
    "<br>\n                              📌 <b>小盘标的</b>：" ++
    sc ++
    "<br>\n                              ⚠️ <b>风险提示</b>：" ++
    rn ++
    "\n                            </div>\n                            "

/-- The formatted annotation block inserted by `add_ai_html_blocks`. -/
def mkBlock (ann : JVal) : String :=
  blockText (jGetStr ann "event_type")
    (sJoin ", " (jGetStrList ann "benefit_sectors"))
    (sJoin ", " (jGetStrList ann "small_cap_stocks"))
    (jGetStr ann "risk_note")

/-- The anchor-text extraction
`line.split('\x22>')[1].split('</a>')[0] if ... else ""` of
`add_ai_html_blocks`. -/
def extractTitle (line : String) : String :=
  if sContains line "\">" && sContains line "</a>" then
    (sSplitOn ((sSplitOn line "\">").getD 1 "") "</a>").headD ""
  else ""

/-- The guard `line.strip().startswith('<li>') and 'href=' in line`. -/
def isNewsLine (line : String) : Bool :=
  sStartsWith (sTrim line) "<li>" && sContains line "href="

/-- Whether one news item contributes a block for the anchor text
`tm`: its title must contain `tm`, it must carry an `"ai_annotation"`
key, and the annotation must be truthy without an `"error"` key. -/
def itemBlock (tm : String) (item : NewsItem) : Option String :=
  if sContains item.title tm then
    match annot item with
    | some ann => if truthy ann && !hasErrorKey ann then some (mkBlock ann) else none
    | none => none
  else none

/-- The blocks appended after one line by `add_ai_html_blocks`: none
unless the line is a `<li>` link line, else one block per qualifying
item of every group, in group order then item order. -/
def annBlocks (news_groups : List NewsGroup) (line : String) : List String :=
  if isNewsLine line then
    news_groups.flatMap (fun group => group.news.filterMap (itemBlock (extractTitle line)))
  else []

/-- `add_ai_html_blocks`: split the report into lines; after each
line, append the blocks of the items matching it; re-join with
newlines. -/
def add_ai_html_blocks (html_content : String) (news_groups : List NewsGroup) : String :=
  sJoin "\n"
    ((sSplitOn html_content "\n").flatMap (fun line => line :: annBlocks news_groups line))

/-!  ## mcp_enhance.py : the raising paths of the HTML injection

The loop body of `add_ai_html_blocks` can raise: for a truthy
annotation that is a number, boolean or `None`, `"error" not in ann`
raises `TypeError`; for a truthy string or list without `"error"`,
`ann.get("event_type", "")` raises `AttributeError`; and
`", ".join(...)` raises `TypeError` on a sector value that is not an
iterable of strings.  The `...E` definitions below embed the same
per-item path fallibly, with `Except.error` exactly at the reads
where the source raises (plus, marked in each doc comment, the few
value shapes Python would render via `str()` or a char- or key-wise
`join`, which the model does not render); `annSafe` singles out the
annotation values on which nothing errors and the total model returns
exactly what the source appends.  The C9 theorem proves that
agreement and carries `annSafe` as its hypothesis, so no conjunct
speaks about an input on which the source raises. -/

/-- Python `needle in v` on an annotation value: containment on a
dict (keys), list (elements) or string (substring); `TypeError` —
`Except.error` — on a number, boolean or `None`. -/
def pyInE (needle : String) (v : JVal) : Except Unit Bool :=
  match v with
  | .obj fields => .ok (fields.any (fun p => p.1 == needle))
  | .arr xs => .ok (xs.any (fun w => match w with | .str s => s == needle | _ => false))
  | .str s => .ok (sContains s needle)
  | _ => .error ()

/-- Python `ann.get(k, default)` resolved to the raw value at `k`
(`none` = absent, so the default applies): `AttributeError` —
`Except.error` — unless `ann` is a dict. -/
def pyGetE (ann : JVal) (k : String) : Except Unit (Option JVal) :=
  match ann with
  | .obj fields => .ok ((fields.find? (fun p => p.1 == k)).map Prod.snd)
  | _ => .error ()

/-- The interpolation `{ann.get(k, "")}` of the block f-string for an
absent or string value.  Any other value is outside the model: Python
would render `str(value)` without raising, so erroring here only
shrinks the domain the C9 theorem speaks about. -/
def pyStrFieldE (v : Option JVal) : Except Unit String :=
  match v with
  | none => .ok ""
  | some (.str s) => .ok s
  | some _ => .error ()

/-- The interpolation `{", ".join(ann.get(k, []))}` for an absent
value or a list of strings.  A list with a non-string element, a
number, a boolean or `None` make the source raise `TypeError`; a
string or dict value, which Python would join char- or key-wise
without raising, is outside the model and also errors. -/
def pyJoinFieldE (v : Option JVal) : Except Unit String :=
  match v with
  | none => .ok ""
  | some (.arr xs) =>
    if xs.all (fun w => match w with | .str _ => true | _ => false) then
      .ok (sJoin ", " (xs.filterMap (fun w => match w with | .str s => some s | _ => none)))
    else .error ()
  | some _ => .error ()

/-- Fallible embedding of one item of the injection loop, in the
source's evaluation order: title containment and key presence, the
truthiness short-circuit, the `"error" in ann` test, then the four
interpolations of the f-string.  `.ok none` = no block appended,
`.ok (some b)` = block `b` appended, `.error` = the loop raises. -/
def itemBlockE (tm : String) (item : NewsItem) : Except Unit (Option String) :=
  if sContains item.title tm then
    match annot item with
    | some ann =>
      if truthy ann then do
        let hasErr ← pyInE "error" ann
        if hasErr then pure none
        else do
          let et ← pyStrFieldE (← pyGetE ann "event_type")
          let bs ← pyJoinFieldE (← pyGetE ann "benefit_sectors")
          let sc ← pyJoinFieldE (← pyGetE ann "small_cap_stocks")
          let rn ← pyStrFieldE (← pyGetE ann "risk_note")
          pure (some (blockText et bs sc rn))
      else pure none
    | none => pure none
  else pure none

/-- Fallible embedding of the blocks appended after one line, in
group order then item order. -/
def annBlocksE (news_groups : List NewsGroup) (line : String) :
    Except Unit (List String) :=
  if isNewsLine line then
    news_groups.foldr (fun group acc => do
      let rest ← acc
      let blocks ← group.news.foldr (fun item acc2 => do
        let rest2 ← acc2
        let b ← itemBlockE (extractTitle line) item
        match b with
        | some s => pure (s :: rest2)
        | none => pure rest2) (pure [])
      pure (blocks ++ rest)) (pure [])
  else pure []

/-- Fallible embedding of `add_ai_html_blocks`: a raising item aborts
the whole call with no output. -/
def add_ai_html_blocksE (html_content : String) (news_groups : List NewsGroup) :
    Except Unit String := do
  let new_lines ← (sSplitOn html_content "\n").foldr (fun line acc => do
    let rest ← acc
    let blocks ← annBlocksE news_groups line
    pure ((line :: blocks) ++ rest)) (pure [])
  pure (sJoin "\n" new_lines)

/-- The four interpolated fields have the shapes the total renderer
handles exactly: `event_type`/`risk_note` absent or a string, the two
sector lists absent or lists of strings. -/
def annOkFields (fields : List (String × JVal)) : Bool :=
  (match (fields.find? (fun p => p.1 == "event_type")).map Prod.snd with
   | none => true | some (.str _) => true | some _ => false) &&
  (match (fields.find? (fun p => p.1 == "risk_note")).map Prod.snd with
   | none => true | some (.str _) => true | some _ => false) &&
  (match (fields.find? (fun p => p.1 == "benefit_sectors")).map Prod.snd with
   | none => true
   | some (.arr xs) => xs.all (fun w => match w with | .str _ => true | _ => false)
   | some _ => false) &&
  (match (fields.find? (fun p => p.1 == "small_cap_stocks")).map Prod.snd with
   | none => true
   | some (.arr xs) => xs.all (fun w => match w with | .str _ => true | _ => false)
   | some _ => false)

/-- Annotation values on which the per-item path of the source
completes without raising and the total model renders it exactly:
anything falsy (short-circuited before `in`); a truthy string or list
carrying `"error"` (skipped before `.get`); a truthy dict either
carrying an `"error"` key (skipped) or with well-shaped fields.
Truthy numbers and booleans (the source raises `TypeError`), truthy
strings and lists without `"error"` (the source raises
`AttributeError`) and dicts with ill-shaped fields are excluded. -/
def annSafe (ann : JVal) : Bool :=
  if truthy ann then
    match ann with
    | .obj fields => fields.any (fun p => p.1 == "error") || annOkFields fields
    | .str s => sContains s "error"
    | .arr xs => xs.any (fun w => match w with | .str s => s == "error" | _ => false)
    | _ => false
  else true

/-- `annSafe` of an optional annotation; an absent key is safe (the
item is skipped before any raising operation). -/
def annSafeOpt : Option JVal → Bool
  | some ann => annSafe ann
  | none => true

/-!  ## Lemmas about the stable descending sort  -/

theorem insertD_perm {α : Type} (key : α → Nat) (x : α) (l : List α) :
    (insertD key x l).Perm (x :: l) := by
  induction l with
  | nil => rfl
  | cons y ys ih =>
    simp only [insertD]
    split
    · exact (ih.cons y).trans (List.Perm.swap x y ys)
    · rfl

theorem sortD_perm {α : Type} (key : α → Nat) (l : List α) :
    (sortD key l).Perm l := by
  induction l with
  | nil => rfl
  | cons x xs ih => exact (insertD_perm key x (sortD key xs)).trans (ih.cons x)

theorem insertD_pairwise {α : Type} (key : α → Nat) (x : α) (l : List α)
    (h : l.Pairwise (fun a b => key b ≤ key a)) :
    (insertD key x l).Pairwise (fun a b => key b ≤ key a) := by
  induction l with
  | nil => simp [insertD]
  | cons y ys ih =>
    rcases List.pairwise_cons.mp h with ⟨hy, hys⟩
    simp only [insertD]
    split
    · rename_i hlt
      refine List.pairwise_cons.mpr ⟨?_, ih hys⟩
      intro z hz
      rcases List.mem_cons.mp ((insertD_perm key x ys).mem_iff.mp hz) with hzx | hzys
      · subst hzx; exact Nat.le_of_lt hlt
      · exact hy z hzys
    · rename_i hge
      refine List.pairwise_cons.mpr ⟨?_, h⟩
      intro z hz
      rcases List.mem_cons.mp hz with hzy | hzys
      · subst hzy; exact Nat.le_of_not_lt hge
      · exact Nat.le_trans (hy z hzys) (Nat.le_of_not_lt hge)

theorem sortD_pairwise {α : Type} (key : α → Nat) (l : List α) :
    (sortD key l).Pairwise (fun a b => key b ≤ key a) := by
  induction l with
  | nil => exact List.Pairwise.nil
  | cons x xs ih => exact insertD_pairwise key x (sortD key xs) ih

theorem insertD_filter_key {α : Type} (key : α → Nat) (k : Nat) (x : α) (l : List α) :
    (insertD key x l).filter (fun a => key a == k) =
      (x :: l).filter (fun a => key a == k) := by
  induction l with
  | nil => rfl
  | cons y ys ih =>
    simp only [insertD]
    split
    · rename_i hlt
      by_cases hx : key x = k
      · have hy : (key y == k) = false := by simp; omega
        simp [List.filter_cons, hy, hx, ih]
      · have hx' : (key x == k) = false := by simp [hx]
        simp [List.filter_cons, hx', ih]
    · rfl

theorem sortD_filter_key {α : Type} (key : α → Nat) (k : Nat) (l : List α) :
    (sortD key l).filter (fun a => key a == k) = l.filter (fun a => key a == k) := by
  induction l with
  | nil => rfl
  | cons x xs ih =>
    simp only [sortD]
    rw [insertD_filter_key key k x (sortD key xs), List.filter_cons, List.filter_cons, ih]

theorem sortD_take_drop_bound {α : Type} (key : α → Nat) (l : List α) (n : Nat) :
    ∀ x ∈ (sortD key l).take n, ∀ y ∈ (sortD key l).drop n, key y ≤ key x := by
  have hp : ((sortD key l).take n ++ (sortD key l).drop n).Pairwise
      (fun a b => key b ≤ key a) := by
    rw [List.take_append_drop]
    exact sortD_pairwise key l
  exact (List.pairwise_append.mp hp).2.2

/-!  ## Claim theorems  -/

/-- C1: for every title and loaded configuration,
`find_related_stocks` returns at most 3 entries and
`find_related_industries` at most 2; each list is sorted by
non-increasing `匹配强度`; entries of equal strength keep the relative
order of the loaded configuration (the filtered output at each
strength is a prefix of the config-ordered match list at that
strength); and truncation only drops entries whose strength is at
most that of every kept entry. -/
theorem find_related_bounded_sorted_stable (a : StockAssociator) (title : String) :
    (find_related_stocks a title).length ≤ 3 ∧
    (find_related_industries a title).length ≤ 2 ∧
    (find_related_stocks a title).Pairwise
      (fun x y => StockMatch.strength y ≤ StockMatch.strength x) ∧
    (find_related_industries a title).Pairwise
      (fun x y => IndustryMatch.strength y ≤ IndustryMatch.strength x) ∧
    (∀ k : Nat,
      (find_related_stocks a title).filter (fun m => StockMatch.strength m == k) <+:
        (relatedStocksRaw a.stock_mappings title).filter
          (fun m => StockMatch.strength m == k)) ∧
    (∀ k : Nat,
      (find_related_industries a title).filter (fun m => IndustryMatch.strength m == k) <+:
        (relatedIndustriesRaw a.industry_mappings title).filter
          (fun m => IndustryMatch.strength m == k)) ∧
    (∀ x ∈ find_related_stocks a title,
      ∀ y ∈ (sortD StockMatch.strength (relatedStocksRaw a.stock_mappings title)).drop 3,
        StockMatch.strength y ≤ StockMatch.strength x) ∧
    (∀ x ∈ find_related_industries a title,
      ∀ y ∈ (sortD IndustryMatch.strength
          (relatedIndustriesRaw a.industry_mappings title)).drop 2,
        IndustryMatch.strength y ≤ IndustryMatch.strength x) := by
  refine ⟨?_, ?_, ?_, ?_, ?_, ?_, ?_, ?_⟩
  · simp only [find_related_stocks, List.length_take]
    omega
  · simp only [find_related_industries, List.length_take]
    omega
  · exact List.Pairwise.sublist (List.take_sublist 3 _)
      (sortD_pairwise StockMatch.strength _)
  · exact List.Pairwise.sublist (List.take_sublist 2 _)
      (sortD_pairwise IndustryMatch.strength _)
  · intro k
    have h1 : (find_related_stocks a title).filter (fun m => StockMatch.strength m == k) <+:
        (sortD StockMatch.strength (relatedStocksRaw a.stock_mappings title)).filter
          (fun m => StockMatch.strength m == k) :=
      List.IsPrefix.filter _ ⟨_, List.take_append_drop 3 _⟩
    rwa [sortD_filter_key] at h1
  · intro k
    have h1 : (find_related_industries a title).filter
        (fun m => IndustryMatch.strength m == k) <+:
        (sortD IndustryMatch.strength (relatedIndustriesRaw a.industry_mappings title)).filter
          (fun m => IndustryMatch.strength m == k) :=
      List.IsPrefix.filter _ ⟨_, List.take_append_drop 2 _⟩
    rwa [sortD_filter_key] at h1
  · exact sortD_take_drop_bound StockMatch.strength _ 3
  · exact sortD_take_drop_bound IndustryMatch.strength _ 2

/-- An element of the pre-truncation match list always carries a
non-empty `匹配关键词` list, with `匹配强度` its length. -/
theorem mem_relatedStocksRaw_shape {mappings : List StockMapping} {title : String}
    {m : StockMatch} (h : m ∈ relatedStocksRaw mappings title) :
    m.matched_keywords ≠ [] ∧ m.strength = m.matched_keywords.length := by
  simp only [relatedStocksRaw, List.mem_filterMap] at h
  obtain ⟨stock, _, heq⟩ := h
  split at heq
  · exact absurd heq (by simp)
  · rename_i hne
    obtain rfl := Option.some.injEq _ _ ▸ heq
    refine ⟨?_, rfl⟩
    intro hnil
    have hnil' : matchedKeywords (sLower title) stock.keywords = [] := hnil
    rw [hnil'] at hne
    simp at hne

/-- C2: a loaded stock entry (with distinct keywords, as the config
data model has keyword sets) contributes to the pre-truncation result
of `find_related_stocks` exactly when one of its keywords occurs
case-insensitively in the title, and its `匹配强度` is the number of
distinct matching keywords; likewise for industry entries and
`find_related_industries`. -/
theorem find_related_mem_iff_keyword (a : StockAssociator) (title : String) :
    (∀ e ∈ a.stock_mappings, (e.keywords).Nodup →
      (((∃ k ∈ e.keywords, sContains (sLower title) (sLower k) = true) ↔
        ({ code := e.code, name := e.name,
           matched_keywords := matchedKeywords (sLower title) e.keywords,
           strength := (matchedKeywords (sLower title) e.keywords).length } : StockMatch) ∈
          sortD StockMatch.strength (relatedStocksRaw a.stock_mappings title)) ∧
       (matchedKeywords (sLower title) e.keywords).length =
         ((matchedKeywords (sLower title) e.keywords).dedup).length)) ∧
    (∀ e ∈ a.industry_mappings, (e.keywords).Nodup →
      (((∃ k ∈ e.keywords, sContains (sLower title) (sLower k) = true) ↔
        ({ sector := e.sector,
           matched_keywords := matchedKeywords (sLower title) e.keywords,
           strength := (matchedKeywords (sLower title) e.keywords).length } : IndustryMatch) ∈
          sortD IndustryMatch.strength (relatedIndustriesRaw a.industry_mappings title)) ∧
       (matchedKeywords (sLower title) e.keywords).length =
         ((matchedKeywords (sLower title) e.keywords).dedup).length)) := by
  constructor
  · intro e he hnd
    refine ⟨?_, by
      rw [List.Nodup.dedup
        (show (matchedKeywords (sLower title) e.keywords).Nodup from
          List.Nodup.filter _ hnd)]⟩
    rw [(sortD_perm StockMatch.strength _).mem_iff]
    constructor
    · rintro ⟨k, hk, hmatch⟩
      have hne : (matchedKeywords (sLower title) e.keywords).isEmpty = false := by
        have hmem : k ∈ matchedKeywords (sLower title) e.keywords :=
          List.mem_filter.mpr ⟨hk, hmatch⟩
        cases hcase : (matchedKeywords (sLower title) e.keywords).isEmpty
        · rfl
        · rw [List.isEmpty_iff] at hcase
          rw [hcase] at hmem
          cases hmem
      simp only [relatedStocksRaw, List.mem_filterMap]
      exact ⟨e, he, by simp [hne]⟩
    · intro hmem
      simp only [relatedStocksRaw, List.mem_filterMap] at hmem
      obtain ⟨stock, _, heq⟩ := hmem
      split at heq
      · exact absurd heq (by simp)
      · rename_i hne
        have hkeq : matchedKeywords (sLower title) stock.keywords =
            matchedKeywords (sLower title) e.keywords := by
          have := Option.some.injEq _ _ ▸ heq
          exact congrArg StockMatch.matched_keywords this
        rw [hkeq] at hne
        have hnnil : matchedKeywords (sLower title) e.keywords ≠ [] := by
          intro hnil
          rw [hnil] at hne
          simp at hne
        obtain ⟨k, hkmem⟩ := List.exists_mem_of_ne_nil _ hnnil
        obtain ⟨hk1, hk2⟩ := List.mem_filter.mp hkmem
        exact ⟨k, hk1, hk2⟩
  · intro e he hnd
    refine ⟨?_, by
      rw [List.Nodup.dedup
        (show (matchedKeywords (sLower title) e.keywords).Nodup from
          List.Nodup.filter _ hnd)]⟩
    rw [(sortD_perm IndustryMatch.strength _).mem_iff]
    constructor
    · rintro ⟨k, hk, hmatch⟩
      have hne : (matchedKeywords (sLower title) e.keywords).isEmpty = false := by
        have hmem : k ∈ matchedKeywords (sLower title) e.keywords :=
          List.mem_filter.mpr ⟨hk, hmatch⟩
        cases hcase : (matchedKeywords (sLower title) e.keywords).isEmpty
        · rfl
        · rw [List.isEmpty_iff] at hcase
          rw [hcase] at hmem
          cases hmem
      simp only [relatedIndustriesRaw, List.mem_filterMap]
      exact ⟨e, he, by simp [hne]⟩
    · intro hmem
      simp only [relatedIndustriesRaw, List.mem_filterMap] at hmem
      obtain ⟨industry, _, heq⟩ := hmem
      split at heq
      · exact absurd heq (by simp)
      · rename_i hne
        have hkeq : matchedKeywords (sLower title) industry.keywords =
            matchedKeywords (sLower title) e.keywords := by
          have := Option.some.injEq _ _ ▸ heq
          exact congrArg IndustryMatch.matched_keywords this
        rw [hkeq] at hne
        have hnnil : matchedKeywords (sLower title) e.keywords ≠ [] := by
          intro hnil
          rw [hnil] at hne
          simp at hne
        obtain ⟨k, hkmem⟩ := List.exists_mem_of_ne_nil _ hnnil
        obtain ⟨hk1, hk2⟩ := List.mem_filter.mp hkmem
        exact ⟨k, hk1, hk2⟩

/-- C3: `associate_news_with_stocks` preserves the payload shape: the
`"stats"` and `"new_titles"` lists keep their length and order, every
entry keeps its other keys and the length and order of its `"titles"`
list, and each title dict is replaced by its enriched version. -/
theorem associate_news_preserves_shape (a : StockAssociator) (nd : NewsData) :
    ((associate_news_with_stocks a nd).stats).length = nd.stats.length ∧
    ((associate_news_with_stocks a nd).new_titles).length = nd.new_titles.length ∧
    (associate_news_with_stocks a nd).extra = nd.extra ∧
    (∀ i : Nat, ((associate_news_with_stocks a nd).stats[i]?.map
        (fun s => s.titles.length)) = nd.stats[i]?.map (fun s => s.titles.length)) ∧
    (∀ i : Nat, ((associate_news_with_stocks a nd).new_titles[i]?.map
        (fun s => s.titles.length)) = nd.new_titles[i]?.map (fun s => s.titles.length)) ∧
    (∀ i : Nat, ((associate_news_with_stocks a nd).stats[i]?.map
        (fun s => s.extra)) = nd.stats[i]?.map (fun s => s.extra)) ∧
    (∀ i : Nat, ((associate_news_with_stocks a nd).new_titles[i]?.map
        (fun s => s.extra)) = nd.new_titles[i]?.map (fun s => s.extra)) ∧
    (∀ i j : Nat,
      ((associate_news_with_stocks a nd).stats[i]?.bind (fun s => s.titles[j]?)) =
        (nd.stats[i]?.bind (fun s => s.titles[j]?)).map (associate_title_with_stocks a)) ∧
    (∀ i j : Nat,
      ((associate_news_with_stocks a nd).new_titles[i]?.bind (fun s => s.titles[j]?)) =
        (nd.new_titles[i]?.bind (fun s => s.titles[j]?)).map
          (associate_title_with_stocks a)) := by
  refine ⟨by simp [associate_news_with_stocks], by simp [associate_news_with_stocks],
    rfl, ?_, ?_, ?_, ?_, ?_, ?_⟩
  · intro i
    simp only [associate_news_with_stocks, List.getElem?_map]
    cases nd.stats[i]? <;> simp
  · intro i
    simp only [associate_news_with_stocks, List.getElem?_map]
    cases nd.new_titles[i]? <;> simp
  · intro i
    simp only [associate_news_with_stocks, List.getElem?_map]
    cases nd.stats[i]? <;> simp
  · intro i
    simp only [associate_news_with_stocks, List.getElem?_map]
    cases nd.new_titles[i]? <;> simp
  · intro i j
    simp only [associate_news_with_stocks, List.getElem?_map]
    cases nd.stats[i]? with
    | none => rfl
    | some s => simp [List.getElem?_map]
  · intro i j
    simp only [associate_news_with_stocks, List.getElem?_map]
    cases nd.new_titles[i]? with
    | none => rfl
    | some s => simp [List.getElem?_map]

/-- C4: when the liveness probe fails, `annotate_news_with_ai`
returns the input list unchanged and no item gains an
`"ai_annotation"` entry. -/
theorem annotate_unavailable_id (oracle : Nat → CallOutcome)
    (news_list : List NewsItem) :
    annotate_news_with_ai false oracle news_list = news_list ∧
    ∀ i : Nat, (annotate_news_with_ai false oracle news_list)[i]?.map annot =
      news_list[i]?.map annot := by
  exact ⟨rfl, fun _ => rfl⟩

/-- The three fields other than the annotation survive one iteration
of the annotation loop untouched, whatever the call outcome. -/
theorem annotateItem_frame (o : CallOutcome) (item : NewsItem) :
    (annotateItem o item).title = item.title ∧
    (annotateItem o item).platform = item.platform ∧
    (annotateItem o item).extra = item.extra := by
  cases o with
  | raised msg => exact ⟨rfl, rfl, rfl⟩
  | response status body =>
    simp only [annotateItem]
    split
    · cases body with
      | noContent => exact ⟨rfl, rfl, rfl⟩
      | content p =>
        cases p with
        | none => exact ⟨rfl, rfl, rfl⟩
        | some j => exact ⟨rfl, rfl, rfl⟩
    · exact ⟨rfl, rfl, rfl⟩

/-- C5: with the service up, every input item yields exactly one
output item at its original position (the loop is total: no outcome,
raised exceptions included, aborts the batch); a raised request
attaches `{"error": str(e)}`, a 200 reply whose content fails
`json.loads` attaches `{"error": "解析失败"}`, and the item's other
fields are never touched. -/
theorem annotate_isolates_per_item_failures (oracle : Nat → CallOutcome)
    (news_list : List NewsItem) :
    (annotate_news_with_ai true oracle news_list).length = news_list.length ∧
    (∀ i : Nat, (annotate_news_with_ai true oracle news_list)[i]? =
      news_list[i]?.map (fun item => annotateItem (oracle i) item)) ∧
    (∀ i : Nat, ∀ item : NewsItem, news_list[i]? = some item →
      (∀ msg : String, oracle i = CallOutcome.raised msg →
        annot (annotateItem (oracle i) item) =
          some (JVal.obj [("error", JVal.str msg)])) ∧
      (oracle i = CallOutcome.response 200 RespBody.noContent →
        annot (annotateItem (oracle i) item) = annot item) ∧
      (oracle i = CallOutcome.response 200 (RespBody.content none) →
        annot (annotateItem (oracle i) item) =
          some (JVal.obj [("error", JVal.str "解析失败")])) ∧
      (annotateItem (oracle i) item).title = item.title ∧
      (annotateItem (oracle i) item).platform = item.platform ∧
      (annotateItem (oracle i) item).extra = item.extra) := by
  refine ⟨?_, ?_, ?_⟩
  · simp [annotate_news_with_ai]
  · intro i
    have h1 : annotate_news_with_ai true oracle news_list =
        List.map (fun p => annotateItem (oracle p.1) p.2) news_list.enum := rfl
    rw [h1, List.getElem?_map, List.getElem?_enum]
    cases news_list[i]? <;> rfl
  · intro i item _
    refine ⟨?_, ?_, ?_, (annotateItem_frame (oracle i) item).1,
      (annotateItem_frame (oracle i) item).2.1, (annotateItem_frame (oracle i) item).2.2⟩
    · intro msg hmsg
      rw [hmsg]
      rfl
    · intro h
      rw [h]
      rfl
    · intro h
      rw [h]
      rfl

/-- C6: `associate_title_with_stocks` returns a missing- or
empty-title dict unchanged, and otherwise a copy that only adds the
`"related_stocks"` and `"related_industries"` entries, every other
field untouched. -/
theorem associate_title_frame (a : StockAssociator) (title_data : TitleData) :
    (title_data.title.getD "" = "" →
      associate_title_with_stocks a title_data = title_data) ∧
    (title_data.title.getD "" ≠ "" →
      (associate_title_with_stocks a title_data).title = title_data.title ∧
      (associate_title_with_stocks a title_data).extra = title_data.extra ∧
      (associate_title_with_stocks a title_data).related_stocks =
        some (find_related_stocks a (title_data.title.getD "")) ∧
      (associate_title_with_stocks a title_data).related_industries =
        some (find_related_industries a (title_data.title.getD ""))) := by
  constructor
  · intro h
    simp [associate_title_with_stocks, h]
  · intro h
    simp [associate_title_with_stocks, h]

/-- C7: a missing or unreadable config file leaves both mapping
tables empty, and the two finders then return the empty list for
every title; construction is total (the failure is only printed). -/
theorem load_failure_fail_open (c : ConfigFile)
    (h : c = ConfigFile.missing ∨ c = ConfigFile.unreadable) :
    (mkStockAssociator c).stock_mappings = [] ∧
    (mkStockAssociator c).industry_mappings = [] ∧
    (∀ title : String, find_related_stocks (mkStockAssociator c) title = [] ∧
      find_related_industries (mkStockAssociator c) title = []) := by
  rcases h with rfl | rfl <;> exact ⟨rfl, rfl, fun _ => ⟨rfl, rfl⟩⟩

/-- C8: `format_stock_info` maps an empty stock list to the empty
string on every platform, known or unknown. -/
theorem format_stock_info_empty (platform : String) :
    format_stock_info [] platform = "" := rfl

/-- The original lines survive, in order, when each line is followed
by its appended blocks. -/
theorem sublist_flatMap_cons {α : Type} (f : α → List α) (l : List α) :
    l.Sublist (l.flatMap (fun x => x :: f x)) := by
  induction l with
  | nil => exact List.nil_sublist _
  | cons x xs ih =>
    simp only [List.flatMap_cons]
    exact List.Sublist.cons₂ x (ih.trans (List.sublist_append_right (f x) _))

theorem exBind_ok {α β : Type} (a : α) (f : α → Except Unit β) :
    (Except.ok a >>= f) = f a := rfl

theorem exMap_ok {α β : Type} (a : α) (f : α → β) :
    (f <$> (Except.ok a : Except Unit α)) = Except.ok (f a) := rfl

theorem exPure_eq {α : Type} (a : α) : (pure a : Except Unit α) = Except.ok a := rfl

/-- On a field value of the shapes `annOkFields` allows, the fallible
string interpolation agrees with the total `jGetStr`. -/
theorem pyStrFieldE_agrees (fields : List (String × JVal)) (k : String)
    (hk : (match (fields.find? (fun p => p.1 == k)).map Prod.snd with
           | none => true | some (.str _) => true | some _ => false) = true) :
    pyStrFieldE ((fields.find? (fun p => p.1 == k)).map Prod.snd) =
      Except.ok (jGetStr (.obj fields) k) := by
  cases hv : (fields.find? (fun p => p.1 == k)).map Prod.snd with
  | none => simp [pyStrFieldE, jGetStr, hv]
  | some v =>
    rw [hv] at hk
    cases v with
    | str s => simp [pyStrFieldE, jGetStr, hv]
    | num n => simp at hk
    | bool b => simp at hk
    | null => simp at hk
    | arr xs => simp at hk
    | obj fs => simp at hk

/-- On a field value of the shapes `annOkFields` allows, the fallible
join interpolation agrees with the total `jGetStrList`. -/
theorem pyJoinFieldE_agrees (fields : List (String × JVal)) (k : String)
    (hk : (match (fields.find? (fun p => p.1 == k)).map Prod.snd with
           | none => true
           | some (.arr xs) =>
             xs.all (fun w => match w with | .str _ => true | _ => false)
           | some _ => false) = true) :
    pyJoinFieldE ((fields.find? (fun p => p.1 == k)).map Prod.snd) =
      Except.ok (sJoin ", " (jGetStrList (.obj fields) k)) := by
  cases hv : (fields.find? (fun p => p.1 == k)).map Prod.snd with
  | none => simp [pyJoinFieldE, jGetStrList, hv, sJoin]
  | some v =>
    rw [hv] at hk
    cases v with
    | arr xs =>
      have hk2 : (xs.all fun w => match w with | JVal.str _ => true | _ => false) =
          true := hk
      simp [pyJoinFieldE, jGetStrList, hv, hk2]
    | str s => simp at hk
    | num n => simp at hk
    | bool b => simp at hk
    | null => simp at hk
    | obj fs => simp at hk

/-- On a safe annotation, the fallible per-item embedding completes
and returns exactly the block (or skip) of the total model. -/
theorem itemBlockE_agrees (tm : String) (item : NewsItem)
    (h : annSafeOpt (annot item) = true) :
    itemBlockE tm item = Except.ok (itemBlock tm item) := by
  simp only [itemBlockE, itemBlock]
  split
  · cases hann : annot item with
    | none => rfl
    | some ann =>
      rw [hann] at h
      simp only [annSafeOpt] at h
      cases htr : truthy ann with
      | false => simp [htr, exPure_eq]
      | true =>
        unfold annSafe at h
        rw [htr] at h
        simp only [if_true] at h
        cases ann with
        | num n => simp at h
        | bool b => simp at h
        | null => simp [truthy] at htr
        | str s =>
          have h2 : sContains s "error" = true := h
          simp [pyInE, hasErrorKey, htr, h2, exBind_ok, exPure_eq]
        | arr xs =>
          have h2 : (xs.any fun w => match w with
              | JVal.str s => s == "error" | _ => false) = true := h
          simp [pyInE, hasErrorKey, htr, h2, exBind_ok, exPure_eq]
        | obj fields =>
          cases herr : fields.any (fun p => p.1 == "error") with
          | true =>
            have herr2 : hasErrorKey (.obj fields) = true := herr
            simp [pyInE, herr, herr2, htr, exBind_ok, exPure_eq]
          | false =>
            have herr2 : hasErrorKey (.obj fields) = false := herr
            have h2 : ((fields.any fun p => p.1 == "error") || annOkFields fields) =
                true := h
            rw [herr] at h2
            simp only [Bool.false_or] at h2
            simp only [annOkFields, Bool.and_eq_true] at h2
            obtain ⟨⟨⟨hev, hrn⟩, hbs⟩, hsc⟩ := h2
            simp only [pyInE, pyGetE, herr, exBind_ok, Bool.false_eq_true, if_false,
              pyStrFieldE_agrees fields "event_type" hev,
              pyJoinFieldE_agrees fields "benefit_sectors" hbs,
              pyJoinFieldE_agrees fields "small_cap_stocks" hsc,
              pyStrFieldE_agrees fields "risk_note" hrn,
              exMap_ok]
            simp [mkBlock, htr, herr2, exPure_eq]
  · rfl

/-- Lifting `itemBlockE_agrees` over one group's news list. -/
theorem newsFoldE_eq (tm : String) :
    ∀ news : List NewsItem, (∀ item ∈ news, annSafeOpt (annot item) = true) →
      (news.foldr (fun item acc2 => do
        let rest2 ← acc2
        let b ← itemBlockE tm item
        match b with
        | some s => pure (s :: rest2)
        | none => pure rest2) (pure [])) =
        Except.ok (news.filterMap (itemBlock tm)) := by
  intro news
  induction news with
  | nil => intro _; rfl
  | cons item rest ih =>
    intro h
    rw [List.foldr_cons, ih (fun it hit => h it (List.mem_cons_of_mem _ hit)), exBind_ok,
      itemBlockE_agrees tm item (h item (List.mem_cons_self item rest)), exBind_ok]
    cases hib : itemBlock tm item <;> simp [List.filterMap_cons, hib, exPure_eq]

/-- Lifting the agreement over the groups list. -/
theorem groupsFoldE_eq (tm : String) :
    ∀ groups : List NewsGroup,
      (∀ g ∈ groups, ∀ item ∈ g.news, annSafeOpt (annot item) = true) →
      (groups.foldr (fun group acc => do
        let rest ← acc
        let blocks ← group.news.foldr (fun item acc2 => do
          let rest2 ← acc2
          let b ← itemBlockE tm item
          match b with
          | some s => pure (s :: rest2)
          | none => pure rest2) (pure [])
        pure (blocks ++ rest)) (pure [])) =
        Except.ok (groups.flatMap (fun g => g.news.filterMap (itemBlock tm))) := by
  intro groups
  induction groups with
  | nil => intro _; rfl
  | cons g gs ih =>
    intro h
    rw [List.foldr_cons, ih (fun g' hg' => h g' (List.mem_cons_of_mem _ hg')), exBind_ok,
      newsFoldE_eq tm g.news (h g (List.mem_cons_self g gs)), exBind_ok,
      List.flatMap_cons]
    rfl

/-- On safe inputs, the fallible per-line embedding completes with
the total model's blocks. -/
theorem annBlocksE_eq (news_groups : List NewsGroup) (line : String)
    (h : ∀ g ∈ news_groups, ∀ item ∈ g.news, annSafeOpt (annot item) = true) :
    annBlocksE news_groups line = Except.ok (annBlocks news_groups line) := by
  unfold annBlocksE annBlocks
  split
  · exact groupsFoldE_eq (extractTitle line) news_groups h
  · rfl

/-- Lifting the agreement over the report lines. -/
theorem linesFoldE_eq (news_groups : List NewsGroup)
    (h : ∀ g ∈ news_groups, ∀ item ∈ g.news, annSafeOpt (annot item) = true) :
    ∀ lines : List String,
      (lines.foldr (fun line acc => do
        let rest ← acc
        let blocks ← annBlocksE news_groups line
        pure ((line :: blocks) ++ rest)) (pure [])) =
        Except.ok (lines.flatMap (fun line => line :: annBlocks news_groups line)) := by
  intro lines
  induction lines with
  | nil => rfl
  | cons l ls ih =>
    rw [List.foldr_cons, ih, exBind_ok, annBlocksE_eq news_groups l h, exBind_ok,
      List.flatMap_cons]
    rfl

/-- On safe inputs the fallible embedding of the whole function
completes and equals the total model. -/
theorem add_ai_html_blocksE_eq (html_content : String) (news_groups : List NewsGroup)
    (h : ∀ g ∈ news_groups, ∀ item ∈ g.news, annSafeOpt (annot item) = true) :
    add_ai_html_blocksE html_content news_groups =
      Except.ok (add_ai_html_blocks html_content news_groups) := by
  unfold add_ai_html_blocksE add_ai_html_blocks
  rw [linesFoldE_eq news_groups h (sSplitOn html_content "\n"), exBind_ok]
  rfl

/-- C9: on payloads whose annotations are safe (`annSafe`: the shapes
on which the source's loop body completes instead of raising — see
`itemBlockE`), the fallible embedding completes and agrees with the
total model, which joins the input lines back in their original
order, each followed by its appended blocks; a qualifying item (title
containing the anchor text, truthy annotation without an `"error"`
key) of any group gets its block appended after a `<li>` link line;
and every appended block comes from an item whose annotation is
truthy and carries no `"error"` key. -/
theorem add_ai_html_blocks_props (html_content : String)
    (news_groups : List NewsGroup)
    (hsafe : ∀ group ∈ news_groups, ∀ item ∈ group.news,
      annSafeOpt (annot item) = true) :
    add_ai_html_blocksE html_content news_groups =
      Except.ok (add_ai_html_blocks html_content news_groups) ∧
    add_ai_html_blocks html_content news_groups =
      sJoin "\n" ((sSplitOn html_content "\n").flatMap
        (fun line => line :: annBlocks news_groups line)) ∧
    (sSplitOn html_content "\n").Sublist
      ((sSplitOn html_content "\n").flatMap
        (fun line => line :: annBlocks news_groups line)) ∧
    (∀ line : String, ∀ group ∈ news_groups, ∀ item ∈ group.news, ∀ ann : JVal,
      isNewsLine line = true →
      sContains item.title (extractTitle line) = true →
      annot item = some ann →
      truthy ann = true →
      hasErrorKey ann = false →
      mkBlock ann ∈ annBlocks news_groups line) ∧
    (∀ line b : String, b ∈ annBlocks news_groups line →
      ∃ group ∈ news_groups, ∃ item ∈ group.news, ∃ ann : JVal,
        annot item = some ann ∧ truthy ann = true ∧ hasErrorKey ann = false ∧
        b = mkBlock ann) := by
  refine ⟨add_ai_html_blocksE_eq html_content news_groups hsafe, rfl,
    sublist_flatMap_cons _ _, ?_, ?_⟩
  · intro line group hg item hi ann hline hcont hann htru herr
    simp only [annBlocks, hline, if_pos]
    refine List.mem_flatMap.mpr ⟨group, hg, List.mem_filterMap.mpr ⟨item, hi, ?_⟩⟩
    simp [itemBlock, hcont, hann, htru, herr]
  · intro line b hb
    simp only [annBlocks] at hb
    split at hb
    · obtain ⟨group, hg, hfm⟩ := List.mem_flatMap.mp hb
      obtain ⟨item, hi, heq⟩ := List.mem_filterMap.mp hfm
      simp only [itemBlock] at heq
      split at heq
      · split at heq
        · rename_i ann hann
          split at heq
          · rename_i hcond
            obtain ⟨htru, herr'⟩ := Bool.and_eq_true_iff.mp hcond
            have herr : hasErrorKey ann = false := by simpa using herr'
            exact ⟨group, hg, item, hi, ann, hann, htru, herr, by cases heq; rfl⟩
          · cases heq
        · cases heq
      · cases heq
    · cases hb

/-!  ## Well-formedness of raw config entries (C10)  -/

/-- Whether a fallible step succeeded. -/
def exOk {α : Type} : Except Unit α → Bool
  | .ok _ => true
  | .error _ => false

/-- The `关联关键词` value is a list of strings. -/
def wfKeywords : JVal → Bool
  | .arr xs => xs.all (fun k => match k with | .str _ => true | _ => false)
  | _ => false

/-- A raw stock entry is a dict carrying `股票名称`, `股票代码` and a
`关联关键词` list of strings. -/
def wfStockEntry (e : JVal) : Bool :=
  exOk (jIndex e "股票名称") && exOk (jIndex e "股票代码") &&
    (match jIndex e "关联关键词" with
     | .ok kws => wfKeywords kws
     | .error _ => false)

/-- A raw industry entry is a dict carrying `板块名称` and a
`关联关键词` list of strings. -/
def wfIndustryEntry (e : JVal) : Bool :=
  exOk (jIndex e "板块名称") &&
    (match jIndex e "关联关键词" with
     | .ok kws => wfKeywords kws
     | .error _ => false)


theorem matchedKeywordsE_ok (tl : String) (kws : JVal)
    (h : wfKeywords kws = true) :
    ∃ r, matchedKeywordsE tl kws = Except.ok r := by
  cases kws with
  | arr xs =>
    simp only [wfKeywords, List.all_eq_true] at h
    induction xs with
    | nil => exact ⟨[], rfl⟩
    | cons k ks ih =>
      obtain ⟨r, hr⟩ := ih (fun k hk => h k (List.mem_cons_of_mem _ hk))
      have hk := h k (List.mem_cons_self k ks)
      cases k with
      | str s =>
        simp only [matchedKeywordsE, List.foldr_cons] at hr ⊢
        rw [hr, exBind_ok]
        cases sContains tl (sLower s)
        · exact ⟨r, rfl⟩
        · exact ⟨s :: r, rfl⟩
      | num n => simp at hk
      | bool b => simp at hk
      | null => simp at hk
      | arr ys => simp at hk
      | obj fs => simp at hk
  | str s => simp [wfKeywords] at h
  | num n => simp [wfKeywords] at h
  | bool b => simp [wfKeywords] at h
  | null => simp [wfKeywords] at h
  | obj fs => simp [wfKeywords] at h

theorem stockEntryE_ok (tl : String) (e : JVal) (h : wfStockEntry e = true) :
    ∃ r, stockEntryE tl e = Except.ok r := by
  simp only [wfStockEntry, Bool.and_eq_true] at h
  obtain ⟨⟨h1, h2⟩, h3⟩ := h
  cases hn : jIndex e "股票名称" with
  | error u => rw [hn] at h1; simp [exOk] at h1
  | ok nameV =>
    cases hc : jIndex e "股票代码" with
    | error u => rw [hc] at h2; simp [exOk] at h2
    | ok codeV =>
      cases hk : jIndex e "关联关键词" with
      | error u => rw [hk] at h3; simp at h3
      | ok kwsV =>
        rw [hk] at h3
        obtain ⟨mk, hmk⟩ := matchedKeywordsE_ok tl kwsV h3
        simp only [stockEntryE, hn, hc, hk, hmk, exBind_ok]
        cases nameV <;> cases codeV <;>
          cases mk with
          | nil => exact ⟨none, rfl⟩
          | cons a as => exact ⟨some _, rfl⟩

theorem industryEntryE_ok (tl : String) (e : JVal) (h : wfIndustryEntry e = true) :
    ∃ r, industryEntryE tl e = Except.ok r := by
  simp only [wfIndustryEntry, Bool.and_eq_true] at h
  obtain ⟨h1, h3⟩ := h
  cases hn : jIndex e "板块名称" with
  | error u => rw [hn] at h1; simp [exOk] at h1
  | ok sectorV =>
    cases hk : jIndex e "关联关键词" with
    | error u => rw [hk] at h3; simp at h3
    | ok kwsV =>
      rw [hk] at h3
      obtain ⟨mk, hmk⟩ := matchedKeywordsE_ok tl kwsV h3
      simp only [industryEntryE, hn, hk, hmk, exBind_ok]
      cases sectorV <;>
        cases mk with
        | nil => exact ⟨none, rfl⟩
        | cons a as => exact ⟨some _, rfl⟩

/-- C10: the two finders run to completion on every title when every
raw config entry is a dict with the required keys and a
keyword list of strings; the loops carry no per-entry guard, so a
malformed entry (here a dict missing all three keys) makes the very
same loop raise, whatever the title. -/
theorem findE_ok_of_wellformed :
    (∀ (mappings : List JVal) (title : String),
      (∀ e ∈ mappings, wfStockEntry e = true) →
        exOk (findRelatedStocksE mappings title) = true) ∧
    (∀ (mappings : List JVal) (title : String),
      (∀ e ∈ mappings, wfIndustryEntry e = true) →
        exOk (findRelatedIndustriesE mappings title) = true) ∧
    findRelatedStocksE [JVal.obj []] "新闻标题" = Except.error () ∧
    findRelatedIndustriesE [JVal.obj []] "新闻标题" = Except.error () := by
  refine ⟨?_, ?_, rfl, rfl⟩
  · intro mappings title h
    suffices hs : ∃ r, (mappings.foldr (fun stock acc => do
        let rest ← acc
        let entry ← stockEntryE (sLower title) stock
        match entry with
        | some m => pure (m :: rest)
        | none => pure rest) (pure [])) = Except.ok r by
      obtain ⟨r, hr⟩ := hs
      simp only [findRelatedStocksE, hr, exBind_ok]
      rfl
    induction mappings with
    | nil => exact ⟨[], rfl⟩
    | cons e es ih =>
      obtain ⟨r, hr⟩ := ih (fun e he => h e (List.mem_cons_of_mem _ he))
      obtain ⟨entry, hentry⟩ :=
        stockEntryE_ok (sLower title) e (h e (List.mem_cons_self e es))
      rw [List.foldr_cons, hr, exBind_ok, hentry, exBind_ok]
      cases entry with
      | none => exact ⟨r, rfl⟩
      | some m => exact ⟨m :: r, rfl⟩
  · intro mappings title h
    suffices hs : ∃ r, (mappings.foldr (fun industry acc => do
        let rest ← acc
        let entry ← industryEntryE (sLower title) industry
        match entry with
        | some m => pure (m :: rest)
        | none => pure rest) (pure [])) = Except.ok r by
      obtain ⟨r, hr⟩ := hs
      simp only [findRelatedIndustriesE, hr, exBind_ok]
      rfl
    induction mappings with
    | nil => exact ⟨[], rfl⟩
    | cons e es ih =>
      obtain ⟨r, hr⟩ := ih (fun e he => h e (List.mem_cons_of_mem _ he))
      obtain ⟨entry, hentry⟩ :=
        industryEntryE_ok (sLower title) e (h e (List.mem_cons_self e es))
      rw [List.foldr_cons, hr, exBind_ok, hentry, exBind_ok]
      cases entry with
      | none => exact ⟨r, rfl⟩
      | some m => exact ⟨m :: r, rfl⟩

/-!  ## Concrete fixtures for witnesses  -/

/-- A small loaded configuration (the spec's chip/battery example plus
two fillers so that truncation actually drops an entry). -/
def cfgW : StockAssociator :=
  { stock_mappings :=
      [ { name := "A", code := "1", keywords := ["芯片"] },
        { name := "B", code := "2", keywords := ["锂电池"] },
        { name := "C", code := "3", keywords := ["芯片", "电池"] },
        { name := "D", code := "4", keywords := ["技术"] },
        { name := "E", code := "5", keywords := ["突破"] } ],
    industry_mappings :=
      [ { sector := "半导体", keywords := ["芯片"] },
        { sector := "新能源", keywords := ["电池"] } ] }

/-- A title dict with a present, non-empty title. -/
def tdW : TitleData :=
  { title := some "芯片突破", related_stocks := none, related_industries := none
    extra := [("url", "https://example.com")] }

/-- A successful annotation value. -/
def annW : JVal := JVal.obj [("event_type", JVal.str "政策")]

/-- An annotated news item whose title contains the anchor text. -/
def itemW : NewsItem :=
  { title := "Hello title today", platform := "p", ai_annotation := some annW
    extra := [] }

/-- A one-item news group. -/
def groupW : NewsGroup := { news := [itemW] }

/-- A rendered `<li>` link line whose anchor text is `Hello title`. -/
def lineW : String := "  <li><a href=\"u\">Hello title</a></li>"

/-!  ## Witnesses  -/

/-- C1 witness: on the chip/battery config the dropped fourth match
has strength at most that of the kept strongest match. -/
theorem find_related_bounded_sorted_stable_witness :
    StockMatch.strength ⟨"5", "E", ["突破"], 1⟩ ≤
      StockMatch.strength ⟨"3", "C", ["芯片", "电池"], 2⟩ :=
  (find_related_bounded_sorted_stable cfgW "芯片电池技术突破").2.2.2.2.2.2.1
    ⟨"3", "C", ["芯片", "电池"], 2⟩ (by decide) ⟨"5", "E", ["突破"], 1⟩ (by decide)

/-- C2 witness: the two-keyword entry of the chip/battery config
qualifies for the title `芯片电池技术突破` with strength 2. -/
theorem find_related_mem_iff_keyword_witness :
    ((∃ k ∈ (["芯片", "电池"] : List String),
        sContains (sLower "芯片电池技术突破") (sLower k) = true) ↔
      ({ code := "3", name := "C",
         matched_keywords := matchedKeywords (sLower "芯片电池技术突破") ["芯片", "电池"],
         strength :=
           (matchedKeywords (sLower "芯片电池技术突破") ["芯片", "电池"]).length } :
            StockMatch) ∈
        sortD StockMatch.strength (relatedStocksRaw cfgW.stock_mappings "芯片电池技术突破")) ∧
    (matchedKeywords (sLower "芯片电池技术突破") ["芯片", "电池"]).length =
      ((matchedKeywords (sLower "芯片电池技术突破") ["芯片", "电池"]).dedup).length :=
  (find_related_mem_iff_keyword cfgW "芯片电池技术突破").1
    { name := "C", code := "3", keywords := ["芯片", "电池"] } (by decide) (by decide)

/-- C5 witness: a raised request on item 0 yields the error marker
with the exception message. -/
theorem annotate_isolates_per_item_failures_witness :
    annot (annotateItem ((fun _ => CallOutcome.raised "boom") 0)
        { title := "t", platform := "p", ai_annotation := none, extra := [] }) =
      some (JVal.obj [("error", JVal.str "boom")]) :=
  ((annotate_isolates_per_item_failures (fun _ => CallOutcome.raised "boom")
      [{ title := "t", platform := "p", ai_annotation := none, extra := [] }]).2.2 0
      { title := "t", platform := "p", ai_annotation := none, extra := [] } rfl).1
    "boom" rfl

/-- C6 witness: on a dict with a non-empty title, the enriched copy
keeps the title and the other keys and gains exactly the two lists. -/
theorem associate_title_frame_witness :
    (associate_title_with_stocks cfgW tdW).title = tdW.title ∧
    (associate_title_with_stocks cfgW tdW).extra = tdW.extra ∧
    (associate_title_with_stocks cfgW tdW).related_stocks =
      some (find_related_stocks cfgW (tdW.title.getD "")) ∧
    (associate_title_with_stocks cfgW tdW).related_industries =
      some (find_related_industries cfgW (tdW.title.getD "")) :=
  (associate_title_frame cfgW tdW).2 (by decide)

/-- C7 witness: a missing config file gives empty tables and empty
lookups. -/
theorem load_failure_fail_open_witness :
    (mkStockAssociator ConfigFile.missing).stock_mappings = [] ∧
    (mkStockAssociator ConfigFile.missing).industry_mappings = [] ∧
    (∀ title : String,
      find_related_stocks (mkStockAssociator ConfigFile.missing) title = [] ∧
      find_related_industries (mkStockAssociator ConfigFile.missing) title = []) :=
  load_failure_fail_open ConfigFile.missing (Or.inl rfl)

/-- C9 witness: the annotated item whose title contains the anchor
text of the `<li>` line gets its block appended. -/
theorem add_ai_html_blocks_props_witness :
    mkBlock annW ∈ annBlocks [groupW] lineW :=
  (add_ai_html_blocks_props "x" [groupW] (by decide)).2.2.2.1 lineW groupW
    (List.mem_singleton.mpr rfl) itemW (List.mem_singleton.mpr rfl) annW
    (by decide) (by decide) rfl rfl rfl

/-- C10 witness: a well-formed one-entry raw config runs to
completion. -/
theorem findE_ok_of_wellformed_witness :
    exOk (findRelatedStocksE
      [JVal.obj [("股票名称", JVal.str "A"), ("股票代码", JVal.str "1"),
        ("关联关键词", JVal.arr [JVal.str "芯片"])]] "芯片大涨") = true :=
  findE_ok_of_wellformed.1
    [JVal.obj [("股票名称", JVal.str "A"), ("股票代码", JVal.str "1"),
      ("关联关键词", JVal.arr [JVal.str "芯片"])]] "芯片大涨" (by decide)
